import Mathlib

/-!
Shallow embedding of the GoGo repository's multiplayer session engine.

The repository's `src/main.go` (second, multiplayer variant) holds the global
`game = NewGame("1")`, the `teaHandler` connection binder, and `model.Update`,
which gates cursor motion and stone placement on `game.Player == m.Player`
and then fans a `SendMsg` out to every registered connection channel except
the sender's own.  The `gogo.sql` file additionally holds a `ModelGame.Update`
variant that appends a `Move` record to the session's move history on every
accepted placement.

Pure data is translated directly: `Cell` is the Go enum, `Game` carries the
fields of the Go struct (the `Conns []*chan tea.Msg` slice is modelled by its
length, since only indices are compared; the channels themselves carry no
state), and `model.Update` becomes a function from the game, the handle and
the message to the successor game, successor handle, the list of connection
indices that receive a `SendMsg`, and the quit flag.
-/

namespace GoGo

/-- Go: `type Cell int` with `Empty`, `White`, `Black` (iota order). -/
inductive Cell where
  | Empty
  | White
  | Black
deriving DecidableEq, Repr

/-- Go: `const BOARD_SIZE = 9`. -/
def BOARD_SIZE : Nat := 9

/-- The key inputs handled by the `tea.KeyMsg` switch: `a/left`, `d/right`,
`w/up`, `s/down`, `tab`, space, and `q`/`ctrl+c`. -/
inductive Key where
  | left
  | right
  | up
  | down
  | tab
  | space
  | quit
deriving DecidableEq, Repr

/-- The message alphabet of `model.Update`: `SendMsg{Id}`, `tea.WindowSizeMsg`
(only height/width, which the session state does not use), and key input. -/
inductive Msg where
  | send (id : Nat)
  | window (width height : Int)
  | key (k : Key)
deriving DecidableEq, Repr

/-- Go struct `Game` from `main.go`.  `Conns []*chan tea.Msg` is modelled by
its length: the fan-out loop only uses the index of each channel. -/
structure Game where
  Id : String
  Board : List Cell
  Cursor : Int
  Last : Int
  Player : Cell
  WhiteCaptures : Nat
  BlackCaptures : Nat
  Players : Nat
  Conns : Nat
deriving DecidableEq, Repr

/-- Go struct `model` from `main.go`; only the session-relevant fields
(`Player`, `Id`) are modelled — `term`, styles, window size and the `Conn`
channel itself play no part in the session logic. -/
structure Model where
  Player : Cell
  Id : Nat
deriving DecidableEq, Repr

/-- Go: `func NewGame(id string) Game` — fresh board of `BOARD_SIZE*BOARD_SIZE`
cells, cursor and last at `-1`, turn colour `White`, no players bound
(`Conns` is the nil slice, length 0). -/
def NewGame (id : String) : Game :=
  { Id := id
    Board := List.replicate (BOARD_SIZE * BOARD_SIZE) Cell.Empty
    Cursor := -1
    Last := -1
    Player := Cell.White
    WhiteCaptures := 0
    BlackCaptures := 0
    Players := 0
    Conns := 0 }

/-- Go: `teaHandler` colour-assignment and registration.  `switch game.Players`
assigns `White` to connection 0 and `Black` to connection 1 and then runs
`game.Players++; game.Conns = append(game.Conns, &m.Conn)`; the `default`
branch logs "Too many players connected" and returns a nil model without
registering anything. -/
def teaHandler (g : Game) : Game × Option Model :=
  match g.Players with
  | 0 =>
    ({ g with Players := g.Players + 1, Conns := g.Conns + 1 },
     some { Player := Cell.White, Id := g.Players })
  | 1 =>
    ({ g with Players := g.Players + 1, Conns := g.Conns + 1 },
     some { Player := Cell.Black, Id := g.Players })
  | _ => (g, none)

/-- The fan-out loop at the end of `model.Update`:
`for i, conn := range game.Conns { if i == m.Id { continue }; *conn <- SendMsg{m.Id} }`.
Result: the list of connection indices that receive a `SendMsg`, in loop order. -/
def fanout (conns : Nat) (id : Nat) : List Nat :=
  (List.range conns).filter (fun i => i != id)

/-- The guard of the space (place stone) branch:
`game.Player == m.Player && game.Cursor >= 0 && game.Cursor < len(game.Board)`. -/
def placeOK (g : Game) (m : Model) : Prop :=
  g.Player = m.Player ∧ g.Cursor ≥ 0 ∧ g.Cursor < (g.Board.length : Int)

instance (g : Game) (m : Model) : Decidable (placeOK g m) :=
  inferInstanceAs (Decidable (_ ∧ _ ∧ _))

/-- Result of one `model.Update` call: the successor global `game`, the
returned model, the connection indices sent a `SendMsg`, and whether
`tea.Quit` was returned. -/
structure UpdRes where
  game : Game
  model : Model
  sends : List Nat
  quit : Bool
deriving DecidableEq, Repr

/-- Go: `func (m model) Update(msg tea.Msg) (tea.Model, tea.Cmd)` from
`main.go` (multiplayer variant), acting on the global `game`.  `SendMsg`
and `q`/`ctrl+c` return before the fan-out loop; every other message falls
through to it. -/
def Update (g : Game) (m : Model) (msg : Msg) : UpdRes :=
  match msg with
  | Msg.send _ => { game := g, model := m, sends := [], quit := false }
  | Msg.window _ _ => { game := g, model := m, sends := fanout g.Conns m.Id, quit := false }
  | Msg.key k =>
    match k with
    | Key.quit => { game := g, model := m, sends := [], quit := true }
    | Key.left =>
      let g := if g.Player = m.Player ∧ g.Cursor > 0 then
          { g with Cursor := g.Cursor - 1 } else g
      { game := g, model := m, sends := fanout g.Conns m.Id, quit := false }
    | Key.right =>
      let g := if g.Player = m.Player ∧ g.Cursor < (g.Board.length : Int) - 1 then
          { g with Cursor := g.Cursor + 1 } else g
      { game := g, model := m, sends := fanout g.Conns m.Id, quit := false }
    | Key.up =>
      let g := if g.Player = m.Player ∧ g.Cursor - (BOARD_SIZE : Int) ≥ 0 then
          { g with Cursor := g.Cursor - (BOARD_SIZE : Int) } else g
      { game := g, model := m, sends := fanout g.Conns m.Id, quit := false }
    | Key.down =>
      let g := if g.Player = m.Player ∧ g.Cursor + (BOARD_SIZE : Int) < (g.Board.length : Int) then
          { g with Cursor := g.Cursor + (BOARD_SIZE : Int) } else g
      { game := g, model := m, sends := fanout g.Conns m.Id, quit := false }
    | Key.tab =>
      let m := { m with Player := if m.Player = Cell.White then Cell.Black else Cell.White }
      { game := g, model := m, sends := fanout g.Conns m.Id, quit := false }
    | Key.space =>
      let g := if placeOK g m then
          { g with Board := g.Board.set g.Cursor.toNat g.Player
                 , Last := g.Cursor
                 , Player := if g.Player = Cell.White then Cell.Black else Cell.White }
        else g
      { game := g, model := m, sends := fanout g.Conns m.Id, quit := false }

/-- Whole-system state for the multiplayer variant: the shared `game`, the
per-connection models in bind order, and (as instrumentation for the spec's
"accepted placements") the colours of the accepted placements so far, in
order. -/
structure Sys where
  game : Game
  handles : List Model
  placed : List Cell
deriving DecidableEq, Repr

/-- A system event: a new connection (`teaHandler`), or key input processed
by the handle at index `i`. -/
inductive Ev where
  | bind
  | input (i : Nat) (k : Key)
deriving DecidableEq, Repr

/-- Instrumentation: the colours appended to the accepted-placement log by one
key input — `[g.Player]` exactly when the space branch's guard accepts. -/
def placedDelta (g : Game) (m : Model) (k : Key) : List Cell :=
  match k with
  | Key.space => if placeOK g m then [g.Player] else []
  | _ => []

/-- One system step: `bind` runs `teaHandler` on the shared game (registering
the new model when one is produced); `input i k` runs `Update` for handle `i`.
An accepted placement records the turn colour that placed. -/
def stepEv (s : Sys) (e : Ev) : Sys :=
  match e with
  | Ev.bind =>
    match teaHandler s.game with
    | (g, some m) => { game := g, handles := s.handles ++ [m], placed := s.placed }
    | (g, none) => { game := g, handles := s.handles, placed := s.placed }
  | Ev.input i k =>
    match s.handles[i]? with
    | none => s
    | some m =>
      { game := (Update s.game m (Msg.key k)).game
        handles := s.handles.set i (Update s.game m (Msg.key k)).model
        placed := s.placed ++ placedDelta s.game m k }

/-- Run a sequence of system events. -/
def run (s : Sys) (evs : List Ev) : Sys :=
  match evs with
  | [] => s
  | e :: rest => run (stepEv s e) rest

/-- The fresh system: `game = NewGame("1")` (the global initialiser in
`main.go`), no connections yet. -/
def init : Sys :=
  { game := NewGame "1", handles := [], placed := [] }

/-- Colour of the n-th accepted placement in the code's turn order:
`NewGame` starts at `White` and each accepted placement flips the colour. -/
def parityColor (n : Nat) : Cell :=
  if n % 2 = 0 then Cell.White else Cell.Black

/-- The strictly alternating colour sequence of length `n`, starting `White`. -/
def altSeq (n : Nat) : List Cell :=
  (List.range n).map parityColor

namespace Sql

/-- The `Move` record appended by `ModelGame.Update` in `gogo.sql`:
`Move{Turn: len(game.Moves), Player: game.Player, NRow: game.Cursor / BOARD_SIZE,
NCol: game.Cursor % BOARD_SIZE, Ctime: uint64(time.Now().UTC().Unix())}`. -/
structure Move where
  Turn : Nat
  Player : Cell
  NRow : Int
  NCol : Int
  Ctime : Nat
deriving DecidableEq, Repr

/-- The session aggregate used by `ModelGame.Update` in `gogo.sql`: the same
board/cursor/last/turn fields as the `main.go` variant plus the ordered move
history `Moves`.  The single `Conn chan tea.Msg` the variant posts to is
modelled by the `sent` flag of `UpdRes` below. -/
structure Game where
  Id : String
  Board : List Cell
  Cursor : Int
  Last : Int
  Player : Cell
  Moves : List Move
deriving DecidableEq, Repr

/-- Go struct `ModelGame` from `gogo.sql`; session-relevant fields only. -/
structure ModelGame where
  Id : Nat
  GameId : String
  Player : Cell
deriving DecidableEq, Repr

/-- The guard of the space (place stone) branch, identical to the `main.go`
variant: `game.Player == m.Player && game.Cursor >= 0 && game.Cursor < len(game.Board)`. -/
def placeOK (g : Game) (m : ModelGame) : Prop :=
  g.Player = m.Player ∧ g.Cursor ≥ 0 ∧ g.Cursor < (g.Board.length : Int)

instance (g : Game) (m : ModelGame) : Decidable (placeOK g m) :=
  inferInstanceAs (Decidable (_ ∧ _ ∧ _))

/-- Result of one `ModelGame.Update` call: successor game, returned model,
whether `game.Conn <- SendMsg{Id: m.Id}` was executed, and the quit flag. -/
structure UpdRes where
  game : Game
  model : ModelGame
  sent : Bool
  quit : Bool
deriving DecidableEq, Repr

/-- Go: `func (m ModelGame) Update(msg tea.Msg) (tea.Model, tea.Cmd)` from
`gogo.sql`.  The Go body looks the game up as `games[m.GameId]` and quits when
absent; the found game is passed here directly, and the wall-clock value
`uint64(time.Now().UTC().Unix())` read in the placement branch is passed as
the `now` argument.  `game.Conn <- SendMsg{Id: m.Id}` runs after the key
switch for every key except `q`/`ctrl+c`, which returns first. -/
def Update (g : Game) (m : ModelGame) (now : Nat) (msg : Msg) : UpdRes :=
  match msg with
  | Msg.send _ => { game := g, model := m, sent := false, quit := false }
  | Msg.window _ _ => { game := g, model := m, sent := false, quit := false }
  | Msg.key k =>
    match k with
    | Key.quit => { game := g, model := m, sent := false, quit := true }
    | Key.left =>
      let g := if g.Player = m.Player ∧ g.Cursor > 0 then
          { g with Cursor := g.Cursor - 1 } else g
      { game := g, model := m, sent := true, quit := false }
    | Key.right =>
      let g := if g.Player = m.Player ∧ g.Cursor < (g.Board.length : Int) - 1 then
          { g with Cursor := g.Cursor + 1 } else g
      { game := g, model := m, sent := true, quit := false }
    | Key.up =>
      let g := if g.Player = m.Player ∧ g.Cursor - (BOARD_SIZE : Int) ≥ 0 then
          { g with Cursor := g.Cursor - (BOARD_SIZE : Int) } else g
      { game := g, model := m, sent := true, quit := false }
    | Key.down =>
      let g := if g.Player = m.Player ∧ g.Cursor + (BOARD_SIZE : Int) < (g.Board.length : Int) then
          { g with Cursor := g.Cursor + (BOARD_SIZE : Int) } else g
      { game := g, model := m, sent := true, quit := false }
    | Key.tab =>
      let m := { m with Player := if m.Player = Cell.White then Cell.Black else Cell.White }
      { game := g, model := m, sent := true, quit := false }
    | Key.space =>
      let g := if placeOK g m then
          { g with Board := g.Board.set g.Cursor.toNat g.Player
                 , Moves := g.Moves ++
                     [{ Turn := g.Moves.length
                        Player := g.Player
                        NRow := g.Cursor / (BOARD_SIZE : Int)
                        NCol := g.Cursor % (BOARD_SIZE : Int)
                        Ctime := now }]
                 , Last := g.Cursor
                 , Player := if g.Player = Cell.White then Cell.Black else Cell.White }
        else g
      { game := g, model := m, sent := true, quit := false }

/-- Modelled from the spec: the fresh `Game` value for the `gogo.sql` variant
is not in the source (only the `games` map lookup and the `Update` body are).
Per the spec a fresh session has an all-Empty board of size² cells, cursor
and last-placed index −1, and an empty ordered move history; the initial
turn colour is taken from the `main.go` variant's `NewGame` (White). -/
def NewGame (id : String) : Game :=
  { Id := id
    Board := List.replicate (BOARD_SIZE * BOARD_SIZE) Cell.Empty
    Cursor := -1
    Last := -1
    Player := Cell.White
    Moves := [] }

/-- Whole-system state for the `gogo.sql` variant: the shared game, the
per-connection models, and the count of accepted placements so far
(instrumentation for the spec's "number of accepted placements"). -/
structure Sys where
  game : Game
  handles : List ModelGame
  placedCount : Nat
deriving DecidableEq, Repr

/-- An input event for the `gogo.sql` variant: handle index, key, and the
wall-clock value observed if a placement happens. -/
structure Ev where
  i : Nat
  k : Key
  now : Nat
deriving DecidableEq, Repr

/-- Instrumentation: 1 exactly when the key input is an accepted placement. -/
def placedDelta (g : Game) (m : ModelGame) (k : Key) : Nat :=
  match k with
  | Key.space => if placeOK g m then 1 else 0
  | _ => 0

/-- One system step for the `gogo.sql` variant. -/
def stepEv (s : Sys) (e : Ev) : Sys :=
  match s.handles[e.i]? with
  | none => s
  | some m =>
    { game := (Update s.game m e.now (Msg.key e.k)).game
      handles := s.handles.set e.i (Update s.game m e.now (Msg.key e.k)).model
      placedCount := s.placedCount + placedDelta s.game m e.k }

/-- Run a sequence of events for the `gogo.sql` variant. -/
def run (s : Sys) (evs : List Ev) : Sys :=
  match evs with
  | [] => s
  | e :: rest => run (stepEv s e) rest

/-- A fresh `gogo.sql`-variant system over an arbitrary list of bound
handles. -/
def init (hs : List ModelGame) : Sys :=
  { game := NewGame "1", handles := hs, placedCount := 0 }

end Sql

/-! ## Verification-specific definitions -/

/-- The inductive invariant of reachable system states: the board keeps its
81 cells, the turn colour tracks the parity of the accepted-placement count,
the accepted placements strictly alternate starting from `White`, and cursor
and last-placed index are `-1` or a valid board index. -/
structure Inv (s : Sys) : Prop where
  boardLen : s.game.Board.length = 81
  turnPar : s.game.Player = parityColor s.placed.length
  placedAlt : s.placed = altSeq s.placed.length
  cursorOK : s.game.Cursor = -1 ∨ (0 ≤ s.game.Cursor ∧ s.game.Cursor < 81)
  lastOK : s.game.Last = -1 ∨ (0 ≤ s.game.Last ∧ s.game.Last < 81)

/-- The inductive invariant of the `gogo.sql` variant: the history length is
the number of accepted placements, and the stored turn indices are exactly
`0..n-1` in order. -/
structure SqlInv (s : Sql.Sys) : Prop where
  lenEq : s.game.Moves.length = s.placedCount
  turns : s.game.Moves.map (fun mv => mv.Turn) = List.range s.game.Moves.length

/-- The acceptance condition of a cursor-motion or placement key: the exact
guard of the corresponding branch of `model.Update`. -/
def acceptedAction (g : Game) (m : Model) (k : Key) : Prop :=
  match k with
  | Key.left => g.Player = m.Player ∧ g.Cursor > 0
  | Key.right => g.Player = m.Player ∧ g.Cursor < (g.Board.length : Int) - 1
  | Key.up => g.Player = m.Player ∧ g.Cursor - (BOARD_SIZE : Int) ≥ 0
  | Key.down => g.Player = m.Player ∧ g.Cursor + (BOARD_SIZE : Int) < (g.Board.length : Int)
  | Key.space => placeOK g m
  | Key.tab => False
  | Key.quit => False

instance (g : Game) (m : Model) : (k : Key) → Decidable (acceptedAction g m k)
  | Key.left => inferInstanceAs (Decidable (_ ∧ _))
  | Key.right => inferInstanceAs (Decidable (_ ∧ _))
  | Key.up => inferInstanceAs (Decidable (_ ∧ _))
  | Key.down => inferInstanceAs (Decidable (_ ∧ _))
  | Key.space => inferInstanceAs (Decidable (placeOK g m))
  | Key.tab => inferInstanceAs (Decidable False)
  | Key.quit => inferInstanceAs (Decidable False)

/-- Session with both players bound (state reached after two `bind`s). -/
def c3Game : Game := { NewGame "1" with Players := 2, Conns := 2 }

/-- The second connection's handle: assigned `Black` by `teaHandler`. -/
def c3Model : Model := { Player := Cell.Black, Id := 1 }

/-- Two-player session whose cursor sits at a valid index. -/
def c5Game : Game := { NewGame "1" with Players := 2, Conns := 2, Cursor := 5 }

/-- Handle at connection index 1 holding the colour whose turn it is. -/
def c5Model : Model := { Player := Cell.White, Id := 1 }

/-- Session where it is Black's turn and the cursor sits on index 0. -/
def c7Game : Game := { NewGame "1" with Cursor := 0, Player := Cell.Black }

/-- A handle holding Black. -/
def c7Model : Model := { Player := Cell.Black, Id := 1 }

/-- A fresh session (turn colour `White`). -/
def c9Game : Game := NewGame "1"

/-- A handle whose colour differs from the session's turn colour. -/
def c9Model : Model := { Player := Cell.Black, Id := 1 }

/-- A fresh `gogo.sql`-variant session with the cursor on index 40 (row 4,
column 4). -/
def sqlGame40 : Sql.Game := { Sql.NewGame "1" with Cursor := 40 }

/-- A `gogo.sql`-variant handle holding the colour whose turn it is. -/
def sqlWhiteHandle : Sql.ModelGame := { Id := 0, GameId := "1", Player := Cell.White }

/-! ## Basic lemmas about the embedding -/

theorem parityColor_succ (n : Nat) :
    parityColor (n + 1) = (if parityColor n = Cell.White then Cell.Black else Cell.White) := by
  rcases Nat.mod_two_eq_zero_or_one n with h | h <;>
    simp [parityColor, Nat.add_mod, h]

theorem altSeq_succ (n : Nat) : altSeq (n + 1) = altSeq n ++ [parityColor n] := by
  simp [altSeq, List.range_succ]

theorem fanout_count_self (n id : Nat) : (fanout n id).count id = 0 := by
  apply List.count_eq_zero_of_not_mem
  intro hmem
  rcases List.mem_filter.mp hmem with ⟨-, hp⟩
  simp at hp

theorem fanout_count_other (n id j : Nat) (hj : j < n) (hne : j ≠ id) :
    (fanout n id).count j = 1 := by
  apply List.count_eq_one_of_mem
  · exact (List.nodup_range n).filter _
  · exact List.mem_filter.mpr ⟨List.mem_range.mpr hj, by simp [hne]⟩

/-- `teaHandler` never touches the board, cursor, last index or turn colour. -/
theorem teaHandler_game_fields (g : Game) :
    ((teaHandler g).1.Board = g.Board) ∧ ((teaHandler g).1.Cursor = g.Cursor) ∧
    ((teaHandler g).1.Last = g.Last) ∧ ((teaHandler g).1.Player = g.Player) := by
  unfold teaHandler
  split <;> simp

/-- The fan-out list of every non-quit key input is exactly
`fanout game.Conns m.Id` (the key branches never change `Conns`). -/
theorem Update_key_sends (g : Game) (m : Model) (k : Key) (hk : k ≠ Key.quit) :
    (Update g m (Msg.key k)).sends = fanout g.Conns m.Id := by
  cases k with
  | quit => exact absurd rfl hk
  | left => simp only [Update]; split <;> rfl
  | right => simp only [Update]; split <;> rfl
  | up => simp only [Update]; split <;> rfl
  | down => simp only [Update]; split <;> rfl
  | tab => rfl
  | space => simp only [Update]; split <;> rfl

theorem Update_left_game (g : Game) (m : Model) :
    (Update g m (Msg.key Key.left)).game =
      if g.Player = m.Player ∧ g.Cursor > 0 then { g with Cursor := g.Cursor - 1 } else g := rfl

theorem Update_right_game (g : Game) (m : Model) :
    (Update g m (Msg.key Key.right)).game =
      if g.Player = m.Player ∧ g.Cursor < (g.Board.length : Int) - 1 then
        { g with Cursor := g.Cursor + 1 } else g := rfl

theorem Update_up_game (g : Game) (m : Model) :
    (Update g m (Msg.key Key.up)).game =
      if g.Player = m.Player ∧ g.Cursor - (BOARD_SIZE : Int) ≥ 0 then
        { g with Cursor := g.Cursor - (BOARD_SIZE : Int) } else g := rfl

theorem Update_down_game (g : Game) (m : Model) :
    (Update g m (Msg.key Key.down)).game =
      if g.Player = m.Player ∧ g.Cursor + (BOARD_SIZE : Int) < (g.Board.length : Int) then
        { g with Cursor := g.Cursor + (BOARD_SIZE : Int) } else g := rfl

theorem Update_space_game (g : Game) (m : Model) :
    (Update g m (Msg.key Key.space)).game =
      if placeOK g m then
        { g with Board := g.Board.set g.Cursor.toNat g.Player
               , Last := g.Cursor
               , Player := if g.Player = Cell.White then Cell.Black else Cell.White }
      else g := rfl

theorem Update_tab_game (g : Game) (m : Model) :
    (Update g m (Msg.key Key.tab)).game = g := rfl

/-! ## Reachability invariant of the multiplayer session -/

theorem init_Inv : Inv init := by
  refine ⟨?_, ?_, ?_, ?_, ?_⟩ <;> decide

theorem append_parityColor (l : List Cell) (h : l = altSeq l.length) :
    l ++ [parityColor l.length] = altSeq (l.length + 1) := by
  rw [altSeq_succ]
  exact congrArg (fun t => t ++ [parityColor l.length]) h

theorem stepEv_Inv {s : Sys} (hs : Inv s) (e : Ev) : Inv (stepEv s e) := by
  obtain ⟨hB, hT, hA, hC, hL⟩ := hs
  cases e with
  | bind =>
    have hg := teaHandler_game_fields s.game
    simp only [stepEv]
    split
    next g m heq =>
      have hfst : (teaHandler s.game).1 = g := by rw [heq]
      rw [hfst] at hg
      refine ⟨?_, ?_, hA, ?_, ?_⟩
      · show g.Board.length = 81
        rw [hg.1]; exact hB
      · show g.Player = parityColor s.placed.length
        rw [hg.2.2.2]; exact hT
      · show g.Cursor = -1 ∨ (0 ≤ g.Cursor ∧ g.Cursor < 81)
        rw [hg.2.1]; exact hC
      · show g.Last = -1 ∨ (0 ≤ g.Last ∧ g.Last < 81)
        rw [hg.2.2.1]; exact hL
    next g heq =>
      have hfst : (teaHandler s.game).1 = g := by rw [heq]
      rw [hfst] at hg
      refine ⟨?_, ?_, hA, ?_, ?_⟩
      · show g.Board.length = 81
        rw [hg.1]; exact hB
      · show g.Player = parityColor s.placed.length
        rw [hg.2.2.2]; exact hT
      · show g.Cursor = -1 ∨ (0 ≤ g.Cursor ∧ g.Cursor < 81)
        rw [hg.2.1]; exact hC
      · show g.Last = -1 ∨ (0 ≤ g.Last ∧ g.Last < 81)
        rw [hg.2.2.1]; exact hL
  | input i k =>
    simp only [stepEv]
    split
    next hH => exact ⟨hB, hT, hA, hC, hL⟩
    next m hH =>
      have hBL : (s.game.Board.length : Int) = 81 := by rw [hB]; rfl
      have hBS : (BOARD_SIZE : Int) = 9 := rfl
      cases k with
      | quit =>
        simp only [placedDelta, List.append_nil]
        exact ⟨hB, hT, hA, hC, hL⟩
      | tab =>
        simp only [placedDelta, List.append_nil]
        exact ⟨hB, hT, hA, hC, hL⟩
      | left =>
        simp only [placedDelta, List.append_nil, Update_left_game]
        by_cases hc : s.game.Player = m.Player ∧ s.game.Cursor > 0
        · rw [if_pos hc]
          have h2 := hc.2
          refine ⟨hB, hT, hA, ?_, hL⟩
          show s.game.Cursor - 1 = -1 ∨ (0 ≤ s.game.Cursor - 1 ∧ s.game.Cursor - 1 < 81)
          omega
        · rw [if_neg hc]
          exact ⟨hB, hT, hA, hC, hL⟩
      | right =>
        simp only [placedDelta, List.append_nil, Update_right_game]
        by_cases hc : s.game.Player = m.Player ∧ s.game.Cursor < (s.game.Board.length : Int) - 1
        · rw [if_pos hc]
          have h2 := hc.2
          rw [hBL] at h2
          refine ⟨hB, hT, hA, ?_, hL⟩
          show s.game.Cursor + 1 = -1 ∨ (0 ≤ s.game.Cursor + 1 ∧ s.game.Cursor + 1 < 81)
          omega
        · rw [if_neg hc]
          exact ⟨hB, hT, hA, hC, hL⟩
      | up =>
        simp only [placedDelta, List.append_nil, Update_up_game]
        by_cases hc : s.game.Player = m.Player ∧ s.game.Cursor - (BOARD_SIZE : Int) ≥ 0
        · rw [if_pos hc]
          have h2 := hc.2
          rw [hBS] at h2
          refine ⟨hB, hT, hA, ?_, hL⟩
          show s.game.Cursor - (BOARD_SIZE : Int) = -1 ∨
            (0 ≤ s.game.Cursor - (BOARD_SIZE : Int) ∧ s.game.Cursor - (BOARD_SIZE : Int) < 81)
          rw [hBS]
          omega
        · rw [if_neg hc]
          exact ⟨hB, hT, hA, hC, hL⟩
      | down =>
        simp only [placedDelta, List.append_nil, Update_down_game]
        by_cases hc : s.game.Player = m.Player ∧
            s.game.Cursor + (BOARD_SIZE : Int) < (s.game.Board.length : Int)
        · rw [if_pos hc]
          have h2 := hc.2
          rw [hBS, hBL] at h2
          refine ⟨hB, hT, hA, ?_, hL⟩
          show s.game.Cursor + (BOARD_SIZE : Int) = -1 ∨
            (0 ≤ s.game.Cursor + (BOARD_SIZE : Int) ∧ s.game.Cursor + (BOARD_SIZE : Int) < 81)
          rw [hBS]
          omega
        · rw [if_neg hc]
          exact ⟨hB, hT, hA, hC, hL⟩
      | space =>
        simp only [placedDelta, Update_space_game]
        by_cases hc : placeOK s.game m
        · simp only [if_pos hc]
          obtain ⟨-, h1, h2⟩ := hc
          rw [hBL] at h2
          refine ⟨?_, ?_, ?_, hC, ?_⟩
          · show (s.game.Board.set s.game.Cursor.toNat s.game.Player).length = 81
            rw [List.length_set]; exact hB
          · show (if s.game.Player = Cell.White then Cell.Black else Cell.White) =
              parityColor (s.placed ++ [s.game.Player]).length
            rw [List.length_append, List.length_singleton, parityColor_succ, hT]
          · show s.placed ++ [s.game.Player] = altSeq (s.placed ++ [s.game.Player]).length
            rw [List.length_append, List.length_singleton, hT]
            exact append_parityColor s.placed hA
          · show s.game.Cursor = -1 ∨ (0 ≤ s.game.Cursor ∧ s.game.Cursor < 81)
            omega
        · simp only [if_neg hc, List.append_nil]
          exact ⟨hB, hT, hA, hC, hL⟩

theorem run_Inv {s : Sys} (hs : Inv s) (evs : List Ev) : Inv (run s evs) := by
  induction evs generalizing s with
  | nil => exact hs
  | cons e rest ih => exact ih (stepEv_Inv hs e)

theorem run_init_Inv (evs : List Ev) : Inv (run init evs) :=
  run_Inv init_Inv evs

/-! ## Move-history invariant of the `gogo.sql` variant -/

theorem sqlInit_SqlInv (hs : List Sql.ModelGame) : SqlInv (Sql.init hs) :=
  ⟨rfl, rfl⟩

theorem sqlStep_SqlInv {s : Sql.Sys} (hs : SqlInv s) (e : Sql.Ev) :
    SqlInv (Sql.stepEv s e) := by
  obtain ⟨h1, h2⟩ := hs
  obtain ⟨i, k, now⟩ := e
  simp only [Sql.stepEv]
  split
  next hH => exact ⟨h1, h2⟩
  next m hH =>
    cases k with
    | quit => exact ⟨h1, h2⟩
    | tab => exact ⟨h1, h2⟩
    | left =>
      refine ⟨?_, ?_⟩ <;> (simp only [Sql.Update, Sql.placedDelta]; split <;> simp [h1, h2])
    | right =>
      refine ⟨?_, ?_⟩ <;> (simp only [Sql.Update, Sql.placedDelta]; split <;> simp [h1, h2])
    | up =>
      refine ⟨?_, ?_⟩ <;> (simp only [Sql.Update, Sql.placedDelta]; split <;> simp [h1, h2])
    | down =>
      refine ⟨?_, ?_⟩ <;> (simp only [Sql.Update, Sql.placedDelta]; split <;> simp [h1, h2])
    | space =>
      by_cases hc : Sql.placeOK s.game m
      · refine ⟨?_, ?_⟩ <;>
          simp [Sql.Update, Sql.placedDelta, hc, h1, h2, List.range_succ]
      · refine ⟨?_, ?_⟩ <;>
          simp [Sql.Update, Sql.placedDelta, hc, h1, h2]

theorem sqlRun_SqlInv {s : Sql.Sys} (hs : SqlInv s) (evs : List Sql.Ev) :
    SqlInv (Sql.run s evs) := by
  induction evs generalizing s with
  | nil => exact hs
  | cons e rest ih => exact ih (sqlStep_SqlInv hs e)

/-! ## The claims -/

/-- C1 (counterexample): the claim says the turn sequence of a fresh session
starts from Black; in the code `NewGame` sets the turn colour to `White`, so
in the concrete trace below — connection 0 (White) and connection 1 (Black)
bind, White moves the cursor onto the board, Black's placement attempt is
rejected, White's is accepted — the first accepted placement is made by
White, not Black. -/
theorem C1_black_start_counterexample :
    (run init [Ev.bind, Ev.bind, Ev.input 0 Key.right, Ev.input 1 Key.space,
               Ev.input 0 Key.space]).placed = [Cell.White] ∧
    Cell.White ≠ Cell.Black := by
  decide

/-- C1 (amended): for every sequence of events applied to a fresh
`GameSession`, the colours of the accepted placements strictly alternate
between White and Black starting from White (the n-th accepted placement has
colour `parityColor n`, with `parityColor 0 = White`), and the current turn
colour always equals the colour that the next accepted placement will have. -/
theorem C1_alternation_starts_white (evs : List Ev) :
    (run init evs).placed = altSeq (run init evs).placed.length ∧
    (run init evs).game.Player = parityColor (run init evs).placed.length :=
  ⟨(run_init_Inv evs).placedAlt, (run_init_Inv evs).turnPar⟩

/-- C2: when the acting handle's colour equals the session's turn colour and
the cursor is a valid board index, the space (PlaceStone) branch of
`ModelGame.Update` sets the board cell at the cursor to that colour, appends
exactly one `Move` whose turn index is the history length before the append,
with the given timestamp and the cursor's row (`Cursor / BOARD_SIZE`) and
column (`Cursor % BOARD_SIZE`), sets the last-placed index to the cursor, and
flips the turn colour to the opposite colour. -/
theorem C2_place_stone_effects (g : Sql.Game) (m : Sql.ModelGame) (now : Nat)
    (h : Sql.placeOK g m) :
    (Sql.Update g m now (Msg.key Key.space)).game.Board =
        g.Board.set g.Cursor.toNat g.Player ∧
    (Sql.Update g m now (Msg.key Key.space)).game.Moves =
        g.Moves ++ [{ Turn := g.Moves.length
                      Player := g.Player
                      NRow := g.Cursor / (BOARD_SIZE : Int)
                      NCol := g.Cursor % (BOARD_SIZE : Int)
                      Ctime := now }] ∧
    (Sql.Update g m now (Msg.key Key.space)).game.Last = g.Cursor ∧
    (Sql.Update g m now (Msg.key Key.space)).game.Player =
        (if g.Player = Cell.White then Cell.Black else Cell.White) := by
  refine ⟨?_, ?_, ?_, ?_⟩ <;> simp [Sql.Update, h]

/-- C2 (witness): the hypotheses hold at a concrete input — cursor 40 on a
fresh board, the White handle while it is White's turn — and the appended
move is turn 0 at row 4, column 4. -/
theorem C2_place_stone_witness :
    Sql.placeOK sqlGame40 sqlWhiteHandle ∧
    (Sql.Update sqlGame40 sqlWhiteHandle 1700000000 (Msg.key Key.space)).game.Moves =
      sqlGame40.Moves ++ [{ Turn := sqlGame40.Moves.length
                            Player := sqlGame40.Player
                            NRow := sqlGame40.Cursor / (BOARD_SIZE : Int)
                            NCol := sqlGame40.Cursor % (BOARD_SIZE : Int)
                            Ctime := 1700000000 }] :=
  ⟨by decide,
   (C2_place_stone_effects sqlGame40 sqlWhiteHandle 1700000000 (by decide)).2.1⟩

/-- C3 (counterexample): the claim says a command by the non-current-turn
colour causes no notification; in the code the fan-out loop runs after the
key switch unconditionally, so when the Black handle presses left while it is
White's turn, the state is unchanged but connection 0 still receives a
notification. -/
theorem C3_notification_counterexample :
    c3Game.Player = Cell.White ∧ c3Model.Player = Cell.Black ∧
    (Update c3Game c3Model (Msg.key Key.left)).game = c3Game ∧
    (Update c3Game c3Model (Msg.key Key.left)).sends = [0] ∧
    (Update c3Game c3Model (Msg.key Key.left)).sends ≠ [] := by
  decide

/-- C3 (amended): a cursor motion or placement command issued by a handle
whose colour differs from the session's current turn colour changes none of
the game state (Board, cursor, last-placed index, turn colour) and leaves the
handle unchanged, but a notification is still sent to every other registered
connection channel — the fan-out is unconditional for key input. -/
theorem C3_wrong_turn_frame (g : Game) (m : Model) (k : Key)
    (hk : k = Key.left ∨ k = Key.right ∨ k = Key.up ∨ k = Key.down ∨ k = Key.space)
    (hne : m.Player ≠ g.Player) :
    (Update g m (Msg.key k)).game = g ∧
    (Update g m (Msg.key k)).model = m ∧
    (Update g m (Msg.key k)).sends = fanout g.Conns m.Id := by
  have hgm : ¬(g.Player = m.Player) := fun hc => hne hc.symm
  rcases hk with rfl | rfl | rfl | rfl | rfl
  · exact ⟨by rw [Update_left_game, if_neg (fun hc => hgm hc.1)], rfl,
           Update_key_sends g m Key.left (by decide)⟩
  · exact ⟨by rw [Update_right_game, if_neg (fun hc => hgm hc.1)], rfl,
           Update_key_sends g m Key.right (by decide)⟩
  · exact ⟨by rw [Update_up_game, if_neg (fun hc => hgm hc.1)], rfl,
           Update_key_sends g m Key.up (by decide)⟩
  · exact ⟨by rw [Update_down_game, if_neg (fun hc => hgm hc.1)], rfl,
           Update_key_sends g m Key.down (by decide)⟩
  · exact ⟨by rw [Update_space_game, if_neg (fun hc => hgm hc.1)], rfl,
           Update_key_sends g m Key.space (by decide)⟩

/-- C3 (witness): the hypotheses hold at a concrete input — the Black handle
presses right while it is White's turn in a two-player session. -/
theorem C3_wrong_turn_frame_witness :
    (Update c3Game c3Model (Msg.key Key.right)).game = c3Game ∧
    (Update c3Game c3Model (Msg.key Key.right)).model = c3Model ∧
    (Update c3Game c3Model (Msg.key Key.right)).sends = fanout c3Game.Conns c3Model.Id :=
  C3_wrong_turn_frame c3Game c3Model Key.right (Or.inr (Or.inl rfl)) (by decide)

/-- C4 (counterexample): the claim says a third connection is admitted as a
read-only spectator and receives a handle; in the code `teaHandler` hits the
`default` branch when two players are already bound, logs an error, returns a
nil model — no handle — and registers nothing (the game is unchanged). -/
theorem C4_spectator_counterexample :
    (run init [Ev.bind, Ev.bind]).game.Players = 2 ∧
    teaHandler (run init [Ev.bind, Ev.bind]).game =
      ((run init [Ev.bind, Ev.bind]).game, none) := by
  decide

/-- C4 (amended): when a third or later connection arrives at a session that
already has 2 bound players, `teaHandler` refuses to create a handle: it
returns no model and leaves the session unchanged (no registration, no colour
assignment), so the connection gains no write authority; it is not admitted
as a spectator handle. -/
theorem C4_third_connection_rejected (g : Game) (h : 2 ≤ g.Players) :
    teaHandler g = (g, none) := by
  unfold teaHandler
  split <;> first | rfl | omega

/-- C4 (witness): the hypothesis holds at a concrete input with 3 bound
players. -/
theorem C4_third_connection_rejected_witness :
    teaHandler { NewGame "1" with Players := 3 } =
      ({ NewGame "1" with Players := 3 }, none) :=
  C4_third_connection_rejected { NewGame "1" with Players := 3 } (by decide)

/-- C5: after any accepted cursor move or placement processed in an `Update`
call by the handle with index `m.Id`, the `SendMsg` fan-out delivers exactly
one notification to every other registered connection channel and none to the
handle's own channel, before the call returns. -/
theorem C5_fanout_exactly_once (g : Game) (m : Model) (k : Key)
    (hacc : acceptedAction g m k) :
    (Update g m (Msg.key k)).sends.count m.Id = 0 ∧
    ∀ j, j < g.Conns → j ≠ m.Id → (Update g m (Msg.key k)).sends.count j = 1 := by
  have hk : k ≠ Key.quit := by
    intro h
    subst h
    exact hacc
  rw [Update_key_sends g m k hk]
  exact ⟨fanout_count_self _ _, fun j hj hne => fanout_count_other _ _ _ hj hne⟩

/-- C5 (witness): the hypothesis holds at a concrete input — an accepted
left cursor move by the handle at index 1 of a two-connection session: its
own channel gets nothing, channel 0 gets exactly one notification. -/
theorem C5_fanout_exactly_once_witness :
    acceptedAction c5Game c5Model Key.left ∧
    (Update c5Game c5Model (Msg.key Key.left)).sends.count 1 = 0 ∧
    (Update c5Game c5Model (Msg.key Key.left)).sends.count 0 = 1 := by
  have h := C5_fanout_exactly_once c5Game c5Model Key.left (by decide)
  exact ⟨by decide, h.1, h.2 0 (by decide) (by decide)⟩

/-- C6: in every reachable `gogo.sql`-variant session state, the move history
length equals the number of accepted placements, and the turn indices stored
in the history are exactly `0..n-1` in order. -/
theorem C6_history_turn_indices (hs : List Sql.ModelGame) (evs : List Sql.Ev) :
    (Sql.run (Sql.init hs) evs).game.Moves.length =
        (Sql.run (Sql.init hs) evs).placedCount ∧
    (Sql.run (Sql.init hs) evs).game.Moves.map (fun mv => mv.Turn) =
        List.range (Sql.run (Sql.init hs) evs).game.Moves.length := by
  have h := sqlRun_SqlInv (sqlInit_SqlInv hs) evs
  exact ⟨h.lenEq, h.turns⟩

/-- C7: an accepted placement writes the mover's colour to the cell at the
cursor with no emptiness precondition on that cell; concretely, after White's
accepted placement puts White on index 0, Black's accepted placement at the
same cursor overwrites index 0 with Black (both events appear in the
accepted-placement log). -/
theorem C7_overwrite_no_empty_check :
    (∀ (g : Game) (m : Model), placeOK g m →
      (Update g m (Msg.key Key.space)).game.Board =
        g.Board.set g.Cursor.toNat g.Player) ∧
    (run init [Ev.bind, Ev.bind, Ev.input 0 Key.right,
               Ev.input 0 Key.space]).game.Board[0]? = some Cell.White ∧
    (run init [Ev.bind, Ev.bind, Ev.input 0 Key.right, Ev.input 0 Key.space,
               Ev.input 1 Key.space]).game.Board[0]? = some Cell.Black ∧
    (run init [Ev.bind, Ev.bind, Ev.input 0 Key.right, Ev.input 0 Key.space,
               Ev.input 1 Key.space]).placed = [Cell.White, Cell.Black] := by
  refine ⟨?_, by decide, by decide, by decide⟩
  intro g m h
  rw [Update_space_game, if_pos h]

/-- C7 (witness): the hypothesis of the universal part holds at a concrete
input — Black places on cell 0, whatever that cell held. -/
theorem C7_overwrite_witness :
    placeOK c7Game c7Model ∧
    (Update c7Game c7Model (Msg.key Key.space)).game.Board =
      c7Game.Board.set c7Game.Cursor.toNat c7Game.Player :=
  ⟨by decide, C7_overwrite_no_empty_check.1 c7Game c7Model (by decide)⟩

/-- C8: the tab (Pass) branch flips only the issuing handle's local colour
field and leaves the shared session — board, cursor, last-placed index, turn
colour and move history — entirely unchanged, in both the `gogo.sql` variant
(whole session record unchanged) and the `main.go` variant. -/
theorem C8_pass_local_only (g : Sql.Game) (m : Sql.ModelGame) (now : Nat)
    (ga : Game) (ma : Model) :
    (Sql.Update g m now (Msg.key Key.tab)).game = g ∧
    (Sql.Update g m now (Msg.key Key.tab)).model =
      { m with Player := if m.Player = Cell.White then Cell.Black else Cell.White } ∧
    (Update ga ma (Msg.key Key.tab)).game = ga ∧
    (Update ga ma (Msg.key Key.tab)).model =
      { ma with Player := if ma.Player = Cell.White then Cell.Black else Cell.White } :=
  ⟨rfl, rfl, rfl, rfl⟩

/-- C9: the turn gate compares the session's turn colour to the handle's
local colour field, which tab (Pass) mutates with no turn check — so a handle
of the wrong colour reaches the session's turn colour with one tab (the
session itself untouched), after which its motions and placements are
accepted; concretely, connection 0 alone places a White stone on index 0,
passes, and then places a Black stone on index 1. -/
theorem C9_pass_steals_turn :
    (∀ (g : Game) (m : Model), g.Player ≠ Cell.Empty → m.Player ≠ Cell.Empty →
      m.Player ≠ g.Player →
      (Update g m (Msg.key Key.tab)).game = g ∧
      (Update g m (Msg.key Key.tab)).model.Player = g.Player) ∧
    (run init [Ev.bind, Ev.bind, Ev.input 0 Key.right, Ev.input 0 Key.space,
               Ev.input 0 Key.tab, Ev.input 0 Key.right,
               Ev.input 0 Key.space]).game.Board[0]? = some Cell.White ∧
    (run init [Ev.bind, Ev.bind, Ev.input 0 Key.right, Ev.input 0 Key.space,
               Ev.input 0 Key.tab, Ev.input 0 Key.right,
               Ev.input 0 Key.space]).game.Board[1]? = some Cell.Black ∧
    (run init [Ev.bind, Ev.bind, Ev.input 0 Key.right, Ev.input 0 Key.space,
               Ev.input 0 Key.tab, Ev.input 0 Key.right,
               Ev.input 0 Key.space]).placed = [Cell.White, Cell.Black] := by
  refine ⟨?_, by decide, by decide, by decide⟩
  intro g m hg hm hne
  refine ⟨rfl, ?_⟩
  show (if m.Player = Cell.White then Cell.Black else Cell.White) = g.Player
  cases hp : m.Player <;> cases hq : g.Player <;> simp_all

/-- C9 (witness): the hypotheses of the universal part hold at a concrete
input — the Black handle tabs while it is White's turn and ends up holding
the session's turn colour. -/
theorem C9_pass_steals_turn_witness :
    (Update c9Game c9Model (Msg.key Key.tab)).game = c9Game ∧
    (Update c9Game c9Model (Msg.key Key.tab)).model.Player = c9Game.Player :=
  C9_pass_steals_turn.1 c9Game c9Model (by decide) (by decide) (by decide)

/-- C10: in every reachable session state, the cursor index and the
last-placed index are each either `-1` or a valid board index in
`[0, BOARD_SIZE * BOARD_SIZE)` — every cursor motion (including from the
`cursor = -1` state) and every accepted placement preserves this. -/
theorem C10_cursor_last_bounds (evs : List Ev) :
    ((run init evs).game.Cursor = -1 ∨
      (0 ≤ (run init evs).game.Cursor ∧
        (run init evs).game.Cursor < (BOARD_SIZE * BOARD_SIZE : Int))) ∧
    ((run init evs).game.Last = -1 ∨
      (0 ≤ (run init evs).game.Last ∧
        (run init evs).game.Last < (BOARD_SIZE * BOARD_SIZE : Int))) := by
  have h := run_init_Inv evs
  have h81 : (BOARD_SIZE * BOARD_SIZE : Int) = 81 := rfl
  rw [h81]
  exact ⟨h.cursorOK, h.lastOK⟩

end GoGo
